import Mathlib

/-!
Shallow embedding of the renewable-energy scheduling optimiser
(`src/optimisation/opt_basic_schedule.py`, together with the forecast
aggregation in its section 1 and the loader interface of
`src/util_data_loader.py`), and proofs about the constraint model it builds.

Numeric quantities are modelled over `ℚ`.  The Gurobi decision variables of
`schedule_basic` become the fields of `Assignment`; the constraints added to
the phase-2 model (source lines 260-350, textually identical to the phase-1
block at lines 158-239) become the fields of the `Prop`-valued structures
`BaseModel` and `ModelFeasible`.  Binary variables are rationals constrained
by `Binary`; the LP relaxation used in phase 1 (`m.relax()`, line 247)
replaces `Binary` by membership in the unit interval (`Unit01`).
-/

namespace OptBasicSchedule

/-- Number of 15-minute periods in November 2020 (source line 87). -/
def nperiod : ℕ := 2880

/-- Week length in periods (source line 94). -/
def w : ℕ := 672

/-- Offset of the first business period (source line 95). -/
def s : ℕ := 132

/-- Day length in periods (source line 96). -/
def d : ℕ := 96

/-- Business-hour periods (Monday-Friday, 9am-5pm blocks of 32 periods),
translated from the range concatenations at source lines 100-116.  The
source's `for i in range(7,12)` / `range(14,19)` / `range(21,26)` loops each
append one 32-period block per iteration; they are unrolled here. -/
def valid_t : List ℕ :=
  List.range' s 32 ++ List.range' (s + d) 32 ++ List.range' (s + 2 * d) 32 ++
    List.range' (s + 3 * d) 32 ++ List.range' (s + 4 * d) 32 ++
    List.range' (s + 7 * d) 32 ++ List.range' (s + 8 * d) 32 ++
    List.range' (s + 9 * d) 32 ++ List.range' (s + 10 * d) 32 ++
    List.range' (s + 11 * d) 32 ++
    List.range' (s + 14 * d) 32 ++ List.range' (s + 15 * d) 32 ++
    List.range' (s + 16 * d) 32 ++ List.range' (s + 17 * d) 32 ++
    List.range' (s + 18 * d) 32 ++
    List.range' (s + 21 * d) 32 ++ List.range' (s + 22 * d) 32 ++
    List.range' (s + 23 * d) 32 ++ List.range' (s + 24 * d) 32 ++
    List.range' (s + 25 * d) 32 ++
    List.range' (s + 28 * d) 32

/-- Complement of `valid_t` within the time grid (source lines 119-120; the
source uses a set difference, which is order-irrelevant because the list is
only ever iterated to post constraints). -/
def nonvalid_t : List ℕ :=
  (List.range nperiod).filter fun t => decide (t ∉ valid_t)

/-- Week 1: periods `[96, 768)` (source line 124). -/
def week1_t : List ℕ := List.range' d w

/-- Week 2: periods `[768, 1440)` (source line 125). -/
def week2_t : List ℕ := List.range' (d + w) w

/-- Week 3: periods `[1440, 2112)` (source line 126). -/
def week3_t : List ℕ := List.range' (d + w * 2) w

/-- Week 4: periods `[2112, 2784)` (source line 127). -/
def week4_t : List ℕ := List.range' (d + w * 3) w

/-- Week 5: periods `[2784, 2880)` (source line 128). -/
def week5_t : List ℕ := List.range' (d + w * 4) (nperiod - (d + w * 4))

/-- The counts of the `ppoi` header line (loader `read_ppoi`,
`util_data_loader.py` lines 195-201). -/
structure Counts where
  building : ℕ
  solar : ℕ
  battery : ℕ
  recur_act : ℕ
  once_act : ℕ
deriving Inhabited

/-- Room counts of one building (`building_instance` columns used at source
lines 91-92). -/
structure BuildingData where
  no_small_rooms : ℕ
  no_large_rooms : ℕ
deriving Inhabited

/-- One battery row of `battery_instance`.  The source uses
`efficiency ** -0.5` and `efficiency ** 0.5` (lines 233-234, 238-239,
343-344, 349-350); since these square roots are in general irrational, the
embedding carries the two derived coefficients `eff_inv_sqrt` and `eff_sqrt`
directly as instance data. -/
structure Battery where
  capacity_kwh : ℚ
  max_power_kwh : ℚ
  eff_sqrt : ℚ
  eff_inv_sqrt : ℚ
deriving Inhabited

/-- One recurring-activity row of `recurring_activity_instance`
(`read_ppoi`, `util_data_loader.py` lines 246-270). -/
structure RecurringActivity where
  no_of_rooms : ℕ
  load_kwh : ℚ
  duration : ℕ
  precedence_list : List ℕ
  no_small_rooms : ℕ
  no_large_rooms : ℕ
deriving Inhabited

/-- A parsed problem instance together with the aggregated base load
(`netload`, source lines 70-77) as a function on period indices. -/
structure Problem where
  counts : Counts
  buildings : List BuildingData
  batteries : List Battery
  recurring : List RecurringActivity
  base_load : ℕ → ℚ

/-- Number of batteries (source line 88). -/
def nbattery (P : Problem) : ℕ := P.batteries.length

/-- Number of recurring activities (source line 89). -/
def nreccur (P : Problem) : ℕ := P.recurring.length

/-- Total number of small rooms over all buildings (source line 91). -/
def nsmallroom (P : Problem) : ℕ := (P.buildings.map BuildingData.no_small_rooms).sum

/-- Total number of large rooms over all buildings (source line 92). -/
def nlargeroom (P : Problem) : ℕ := (P.buildings.map BuildingData.no_large_rooms).sum

/-- Row access into the battery table. -/
def bat (P : Problem) (b : ℕ) : Battery := P.batteries.getD b default

/-- Row access into the recurring-activity table. -/
def ract (P : Problem) (a : ℕ) : RecurringActivity := P.recurring.getD a default

/-- A valuation of all decision variables of the model (source lines
260-268; the phase-1 block at lines 158-166 declares the same variables). -/
structure Assignment where
  net_power : ℕ → ℚ
  act_power : ℕ → ℚ
  bat_level : ℕ → ℕ → ℚ
  ract_begin : ℕ → ℕ → ℚ
  ract_ongoing : ℕ → ℕ → ℚ
  bat_charge : ℕ → ℕ → ℚ
  bat_discharge : ℕ → ℕ → ℚ
  maxpower : ℚ

/-- Domain of a binary (`vtype = GRB.BINARY`) variable. -/
def Binary (x : ℚ) : Prop := x = 0 ∨ x = 1

/-- Domain of a relaxed binary variable after `m.relax()`. -/
def Unit01 (x : ℚ) : Prop := 0 ≤ x ∧ x ≤ 1

/-- The period range is nonempty. -/
def range_nperiod_nonempty : (Finset.range nperiod).Nonempty :=
  ⟨0, Finset.mem_range.mpr (by norm_num [nperiod])⟩

/-- The value `gp.max_(net_power[t] for t in range(nperiod))` (source lines
221 and 329). -/
def maxOf (σ : Assignment) : ℚ :=
  (Finset.range nperiod).sup' range_nperiod_nonempty σ.net_power

/-- All constraints of the model except the two facts about the `maxpower`
variable (its implicit lower bound 0 and the `gp.max_` constraint), with the
variable-domain predicate for binary variables abstracted as `dom`.
Field order follows the source (lines 260-350). -/
structure BaseModel (dom : ℚ → Prop) (P : Problem) (σ : Assignment) : Prop where
  net_power_lb : ∀ t ∈ Finset.range nperiod, 0 ≤ σ.net_power t
  act_power_lb : ∀ t ∈ Finset.range nperiod, 0 ≤ σ.act_power t
  bat_level_lb : ∀ b ∈ Finset.range (nbattery P), ∀ t ∈ Finset.range nperiod,
    0 ≤ σ.bat_level b t
  ract_begin_dom : ∀ a ∈ Finset.range (nreccur P), ∀ t ∈ Finset.range nperiod,
    dom (σ.ract_begin a t)
  ract_ongoing_dom : ∀ a ∈ Finset.range (nreccur P), ∀ t ∈ Finset.range nperiod,
    dom (σ.ract_ongoing a t)
  bat_charge_dom : ∀ b ∈ Finset.range (nbattery P), ∀ t ∈ Finset.range nperiod,
    dom (σ.bat_charge b t)
  bat_discharge_dom : ∀ b ∈ Finset.range (nbattery P), ∀ t ∈ Finset.range nperiod,
    dom (σ.bat_discharge b t)
  bat_initial : ∀ b ∈ Finset.range (nbattery P),
    σ.bat_level b 0 = (bat P b).capacity_kwh
  bat_capacity : ∀ b ∈ Finset.range (nbattery P), ∀ t ∈ Finset.range nperiod,
    σ.bat_level b t ≤ (bat P b).capacity_kwh
  weekly_week1 : ∀ a ∈ Finset.range (nreccur P),
    (week1_t.map fun t => σ.ract_begin a t).sum = 1
  weekly_week2 : ∀ a ∈ Finset.range (nreccur P),
    (week2_t.map fun t => σ.ract_begin a t).sum = 1
  weekly_week3 : ∀ a ∈ Finset.range (nreccur P),
    (week3_t.map fun t => σ.ract_begin a t).sum = 1
  weekly_week4 : ∀ a ∈ Finset.range (nreccur P),
    (week4_t.map fun t => σ.ract_begin a t).sum = 1
  prec_before : ∀ a ∈ Finset.range (nreccur P), ∀ p ∈ (ract P a).precedence_list,
    (week1_t.map fun t => σ.ract_begin p t * (t : ℚ)).sum ≤
      (week1_t.map fun t => σ.ract_begin a t * (t : ℚ)).sum
  periodic_begin : ∀ a ∈ Finset.range (nreccur P), ∀ num ∈ Finset.Ico 768 nperiod,
    σ.ract_begin a num = σ.ract_begin a (num - 672)
  periodic_ongoing : ∀ a ∈ Finset.range (nreccur P), ∀ num ∈ Finset.Ico 768 nperiod,
    σ.ract_ongoing a num = σ.ract_ongoing a (num - 672)
  duration_contiguity : ∀ a ∈ Finset.range (nreccur P),
    ∀ t ∈ Finset.range (nperiod - (ract P a).duration),
    ∀ k ∈ Finset.range (ract P a).duration,
    σ.ract_begin a t ≤ σ.ract_ongoing a (t + k)
  nonvalid_ongoing : ∀ a ∈ Finset.range (nreccur P), ∀ t ∈ nonvalid_t,
    σ.ract_ongoing a t = 0
  nonvalid_begin : ∀ a ∈ Finset.range (nreccur P), ∀ t ∈ nonvalid_t,
    σ.ract_begin a t = 0
  small_room_cap : ∀ t ∈ Finset.range nperiod,
    (∑ a ∈ Finset.range (nreccur P),
      σ.ract_ongoing a t * ((ract P a).no_small_rooms : ℚ)) ≤ (nsmallroom P : ℚ)
  large_room_cap : ∀ t ∈ Finset.range nperiod,
    (∑ a ∈ Finset.range (nreccur P),
      σ.ract_ongoing a t * ((ract P a).no_large_rooms : ℚ)) ≤ (nlargeroom P : ℚ)
  act_power_eq : ∀ t ∈ Finset.range nperiod,
    σ.act_power t = ∑ a ∈ Finset.range (nreccur P),
      σ.ract_ongoing a t * (ract P a).load_kwh *
        (((ract P a).no_small_rooms : ℚ) + ((ract P a).no_large_rooms : ℚ))
  bat_dynamics : ∀ t ∈ Finset.Ico 1 nperiod, ∀ b ∈ Finset.range (nbattery P),
    σ.bat_level b t = σ.bat_level b (t - 1) +
      σ.bat_charge b t * (bat P b).max_power_kwh * (bat P b).eff_inv_sqrt -
      σ.bat_discharge b t * (bat P b).max_power_kwh * (bat P b).eff_sqrt
  net_power_eq : ∀ t ∈ Finset.range nperiod,
    σ.net_power t = P.base_load t + σ.act_power t +
      ∑ b ∈ Finset.range (nbattery P),
        (σ.bat_charge b t * (bat P b).max_power_kwh * (bat P b).eff_inv_sqrt -
          σ.bat_discharge b t * (bat P b).max_power_kwh * (bat P b).eff_sqrt)

/-- The full constraint model: `BaseModel` plus the lower bound of the
`maxpower` variable (source lines 166, 268) and the `gp.max_` constraint
(source lines 221, 329). -/
structure ModelFeasible (dom : ℚ → Prop) (P : Problem) (σ : Assignment)
    extends BaseModel dom P σ : Prop where
  maxpower_lb : 0 ≤ σ.maxpower
  max_power_eq : σ.maxpower = maxOf σ

/-- Feasibility for the integral (phase-2) model. -/
abbrev Feasible : Problem → Assignment → Prop := ModelFeasible Binary

/-- Feasibility for the relaxed (phase-1) model after `m.relax()`. -/
abbrev Relaxed : Problem → Assignment → Prop := ModelFeasible Unit01

/-- Phase 1 sets `m.setObjective(maxpower)` (source line 243) and reads back
`max_limit = m.getObjective().getValue()` (source lines 250-251). -/
def phase1_objective (σ : Assignment) : ℚ := σ.maxpower

/-- The phase-2 objective expression (source line 354). -/
def phase2_objective (max_limit : ℚ) (price : ℕ → ℚ) (σ : Assignment) : ℚ :=
  (∑ t ∈ Finset.range nperiod, 0.25 * σ.net_power t * price t / 1000) +
    0.005 * max_limit ^ 2

/-- The cost returned by `schedule_basic` (source line 359): the phase-2
objective evaluated at the phase-2 solution `σ2`, with `max_limit` taken
from the phase-1 solution `σ1`. -/
def schedule_basic_cost (price : ℕ → ℚ) (σ1 σ2 : Assignment) : ℚ :=
  phase2_objective (phase1_objective σ1) price σ2

/-- The `ppoi` header line of the output (source lines 366-371). -/
def line_header (P : Problem) : String :=
  "ppoi" ++ " " ++ toString P.counts.building ++ " " ++ toString P.counts.solar ++
    " " ++ toString P.counts.battery ++ " " ++ toString P.counts.recur_act ++
    " " ++ toString P.counts.once_act

/-- The schedule-size line of the output (source line 376). -/
def line_sched (P : Problem) : String :=
  "sched " ++ toString P.counts.recur_act ++ " 0"

/-- Activity-start lines of the output (source lines 380-386). -/
def activity_lines (P : Problem) (σ : Assignment) : List String :=
  ((List.range nperiod).map fun t =>
    (List.range (nreccur P)).filterMap fun r =>
      if σ.ract_begin r t = 1 then
        some ("r " ++ toString r ++ " " ++ toString t ++ " " ++
          toString (ract P r).no_of_rooms)
      else none).flatten

/-- Battery-event lines of the output (source lines 390-402). -/
def battery_lines (P : Problem) (σ : Assignment) : List String :=
  ((List.range nperiod).map fun t =>
    ((List.range (nbattery P)).map fun b =>
      (if σ.bat_charge b t = 1 then
        ["b " ++ toString b ++ " " ++ toString t ++ " 0"] else []) ++
      (if σ.bat_discharge b t = 1 then
        ["b " ++ toString b ++ " " ++ toString t ++ " 2"] else [])).flatten).flatten

/-- The `ppoi_list` returned by `schedule_basic` (source lines 362-404). -/
def schedule_ppoi_list (P : Problem) (σ : Assignment) : List String :=
  [line_header P, line_sched P] ++ activity_lines P σ ++ battery_lines P σ

/-- The load aggregation of source lines 62-77: row `i` of the forecast table
is building `i`'s consumption for `i < 6` and panel `i - 6`'s production for
`6 ≤ i < 12`; entry `t` of each used row is read for every period
`t ∈ [0, 2880)`.  A reference to a missing row or entry (an `IndexError` in
Python) is modelled as `none`. -/
def netload (rows : List (List ℚ)) : Option (List ℚ) :=
  (List.range nperiod).mapM fun t =>
    ((List.range 6).mapM fun i => (rows[i]?).bind fun row => row[t]?).bind fun bc =>
      ((List.range 6).mapM fun i => (rows[i + 6]?).bind fun row => row[t]?).bind fun sp =>
        some (bc.sum - sp.sum)

/-- Objective values attainable in the source's peak-power formulation: the
single constraint `maxpower == gp.max_(net_power[t] ...)` with objective
`maxpower` (source lines 221, 243). -/
def maxFormValues (dom : ℚ → Prop) (P : Problem) : Set ℚ :=
  {v | ∃ σ : Assignment, BaseModel dom P σ ∧ 0 ≤ σ.maxpower ∧
    σ.maxpower = maxOf σ ∧ v = σ.maxpower}

/-- Objective values attainable in the epigraph formulation of the same
model: one linear inequality `peakPower ≥ netPower[t]` per period, objective
`peakPower` (spec section 4.3 item 9). -/
def epiFormValues (dom : ℚ → Prop) (P : Problem) : Set ℚ :=
  {v | ∃ σ : Assignment, BaseModel dom P σ ∧ 0 ≤ v ∧
    ∀ t ∈ Finset.range nperiod, σ.net_power t ≤ v}

/-- A problem instance with no batteries and no recurring activities and
base load `f`. -/
def zeroProblem (f : ℕ → ℚ) : Problem :=
  { counts := { building := 6, solar := 6, battery := 0, recur_act := 0, once_act := 0 },
    buildings := [], batteries := [], recurring := [], base_load := f }

/-- The assignment forced by the model of `zeroProblem f`: net power equals
the base load, everything else is zero. -/
def sigma_of_base (f : ℕ → ℚ) : Assignment :=
  { net_power := f, act_power := fun _ => 0, bat_level := fun _ _ => 0,
    ract_begin := fun _ _ => 0, ract_ongoing := fun _ _ => 0,
    bat_charge := fun _ _ => 0, bat_discharge := fun _ _ => 0,
    maxpower := (Finset.range nperiod).sup' range_nperiod_nonempty f }

/-- Start periods of the concrete recurring-activity schedule used below:
one start per full week, placed at `228 = 132 + 96` (the second business
block of week 1) and repeated at weekly offset `672`.  The corresponding
week-5 copy `228 + 4 * 672 = 2916` lies beyond the grid, so week 5 contains
no start. -/
def startS : List ℕ := [228, 900, 1572, 2244]

/-- Indicator of `startS` as a rational value. -/
def ind (t : ℕ) : ℚ := if t ∈ startS then 1 else 0

/-- A recurring activity with one small room, zero load, duration 1 and no
predecessors. -/
def actA : RecurringActivity :=
  { no_of_rooms := 1, load_kwh := 0, duration := 1, precedence_list := [],
    no_small_rooms := 1, no_large_rooms := 0 }

/-- Like `actA` but with activity 0 as predecessor. -/
def actB : RecurringActivity := { actA with precedence_list := [0] }

/-- Concrete instance: one building with two small and two large rooms, no
batteries, two recurring activities (`actB` preceded by `actA`), zero base
load. -/
def instA : Problem :=
  { counts := { building := 1, solar := 0, battery := 0, recur_act := 2, once_act := 0 },
    buildings := [{ no_small_rooms := 2, no_large_rooms := 2 }],
    batteries := [],
    recurring := [actA, actB],
    base_load := fun _ => 0 }

/-- Concrete feasible assignment for `instA`: both activities start (and are
ongoing, with duration 1) exactly at the periods in `startS`. -/
def sigmaA : Assignment :=
  { net_power := fun _ => 0, act_power := fun _ => 0, bat_level := fun _ _ => 0,
    ract_begin := fun _ t => ind t, ract_ongoing := fun _ t => ind t,
    bat_charge := fun _ _ => 0, bat_discharge := fun _ _ => 0,
    maxpower := 0 }

/-- Concrete instance with a single battery (capacity 10 kWh, maximum power
5 kWh per period, efficiency 1) and no activities. -/
def instB : Problem :=
  { counts := { building := 6, solar := 6, battery := 1, recur_act := 0, once_act := 0 },
    buildings := [],
    batteries := [{ capacity_kwh := 10, max_power_kwh := 5, eff_sqrt := 1, eff_inv_sqrt := 1 }],
    recurring := [],
    base_load := fun _ => 0 }

/-- Concrete feasible assignment for `instB` in which the battery charges
and discharges simultaneously at every period. -/
def sigmaB : Assignment :=
  { net_power := fun _ => 0, act_power := fun _ => 0, bat_level := fun _ _ => 10,
    ract_begin := fun _ _ => 0, ract_ongoing := fun _ _ => 0,
    bat_charge := fun _ _ => 1, bat_discharge := fun _ _ => 1,
    maxpower := 0 }

/-! ### Calendar helper lemmas -/

/-- Membership in the filtered complement list. -/
theorem mem_nonvalid_t {t : ℕ} : t ∈ nonvalid_t ↔ t < 2880 ∧ t ∉ valid_t := by
  simp [nonvalid_t, List.mem_filter, List.mem_range, nperiod]

/-- The 96-period lead-in contains no business period. -/
theorem not_valid_lead_in {t : ℕ} (ht : t < 96) : t ∉ valid_t := by
  intro h
  simp only [valid_t, List.mem_append, List.mem_range'_1, s, d] at h
  omega

/-- The periods `[672, 768)` (the weekend closing week 1) contain no
business period. -/
theorem not_valid_gap {t : ℕ} (h1 : 672 ≤ t) (h2 : t < 768) : t ∉ valid_t := by
  intro h
  simp only [valid_t, List.mem_append, List.mem_range'_1, s, d] at h
  omega

/-- Every start period of the concrete schedule is a business period. -/
theorem startS_valid : ∀ u ∈ startS, u ∈ valid_t := by
  intro u hu
  simp only [startS, List.mem_cons, List.not_mem_nil, or_false] at hu
  simp only [valid_t, List.mem_append, List.mem_range'_1, s, d]
  rcases hu with rfl | rfl | rfl | rfl <;> omega

/-- The concrete start set repeats with weekly period 672 inside the grid. -/
theorem startS_periodic {num : ℕ} (h1 : 768 ≤ num) (h2 : num < 2880) :
    (num ∈ startS ↔ num - 672 ∈ startS) := by
  simp only [startS, List.mem_cons, List.not_mem_nil, or_false]
  omega

theorem mem_week1_t {t : ℕ} : t ∈ week1_t ↔ 96 ≤ t ∧ t < 768 := by
  rw [week1_t, List.mem_range'_1]
  simp only [d, w, nperiod]

theorem mem_week2_t {t : ℕ} : t ∈ week2_t ↔ 768 ≤ t ∧ t < 1440 := by
  rw [week2_t, List.mem_range'_1]
  simp only [d, w, nperiod]

theorem mem_week3_t {t : ℕ} : t ∈ week3_t ↔ 1440 ≤ t ∧ t < 2112 := by
  rw [week3_t, List.mem_range'_1]
  simp only [d, w, nperiod]

theorem mem_week4_t {t : ℕ} : t ∈ week4_t ↔ 2112 ≤ t ∧ t < 2784 := by
  rw [week4_t, List.mem_range'_1]
  simp only [d, w, nperiod]

theorem mem_week5_t {t : ℕ} : t ∈ week5_t ↔ 2784 ≤ t ∧ t < 2880 := by
  rw [week5_t, List.mem_range'_1]
  simp only [d, w, nperiod]

theorem week1_t_nodup : week1_t.Nodup := List.nodup_range' _ _

theorem week2_t_nodup : week2_t.Nodup := List.nodup_range' _ _

theorem week3_t_nodup : week3_t.Nodup := List.nodup_range' _ _

theorem week4_t_nodup : week4_t.Nodup := List.nodup_range' _ _

/-! ### Binary one-hot helper lemmas -/

theorem binary_nonneg {x : ℚ} (h : Binary x) : 0 ≤ x := by
  rcases h with rfl | rfl <;> norm_num

theorem binary_unit01 {x : ℚ} (h : Binary x) : Unit01 x := by
  rcases h with rfl | rfl <;> exact ⟨by norm_num, by norm_num⟩

/-- In a binary family summing to 1 over a finite index set, every index
other than a one-index carries value 0. -/
theorem binary_sum_eq_zero_of_ne (sf : Finset ℕ) (f : ℕ → ℚ)
    (hbin : ∀ x ∈ sf, Binary (f x)) (hsum : ∑ x ∈ sf, f x = 1)
    {t0 : ℕ} (ht0 : t0 ∈ sf) (h1 : f t0 = 1) :
    ∀ x ∈ sf, x ≠ t0 → f x = 0 := by
  intro x hx hne
  have herase : f t0 + ∑ y ∈ sf.erase t0, f y = ∑ y ∈ sf, f y :=
    Finset.add_sum_erase sf f ht0
  have hz : ∑ y ∈ sf.erase t0, f y = 0 := by
    rw [hsum, h1] at herase
    linarith
  have hnn : ∀ y ∈ sf.erase t0, 0 ≤ f y := fun y hy =>
    binary_nonneg (hbin y (Finset.mem_of_mem_erase hy))
  exact (Finset.sum_eq_zero_iff_of_nonneg hnn).mp hz x (Finset.mem_erase.mpr ⟨hne, hx⟩)

/-- A binary family summing to 1 over a finite index set has exactly one
one-index. -/
theorem binary_sum_exists_unique (sf : Finset ℕ) (f : ℕ → ℚ)
    (hbin : ∀ x ∈ sf, Binary (f x)) (hsum : ∑ x ∈ sf, f x = 1) :
    ∃! t, t ∈ sf ∧ f t = 1 := by
  have hex : ∃ t ∈ sf, f t = 1 := by
    by_contra hno
    push_neg at hno
    have hz : ∑ x ∈ sf, f x = 0 := Finset.sum_eq_zero fun x hx => by
      rcases hbin x hx with h0 | h1
      · exact h0
      · exact absurd h1 (hno x hx)
    rw [hz] at hsum
    norm_num at hsum
  obtain ⟨t0, ht0, h1⟩ := hex
  refine ⟨t0, ⟨ht0, h1⟩, ?_⟩
  rintro t ⟨ht, h1'⟩
  by_contra hne
  have h0 := binary_sum_eq_zero_of_ne sf f hbin hsum ht0 h1 t ht hne
  rw [h0] at h1'
  norm_num at h1'

/-- The weighted sum `∑ f x * x` of a binary one-hot family equals its
unique one-index. -/
theorem binary_weighted_sum (sf : Finset ℕ) (f : ℕ → ℚ)
    (hbin : ∀ x ∈ sf, Binary (f x)) (hsum : ∑ x ∈ sf, f x = 1)
    {t0 : ℕ} (ht0 : t0 ∈ sf) (h1 : f t0 = 1) :
    (∑ x ∈ sf, f x * (x : ℚ)) = t0 := by
  have h0 : ∀ b ∈ sf, b ≠ t0 → f b * (b : ℚ) = 0 := fun b hb hne => by
    rw [binary_sum_eq_zero_of_ne sf f hbin hsum ht0 h1 b hb hne, zero_mul]
  rw [Finset.sum_eq_single t0 h0 (fun h => absurd ht0 h), h1, one_mul]

/-- Sum of the `startS` indicator over a duplicate-free list containing
exactly one element of `startS`. -/
theorem sum_map_ind_eq_one (l : List ℕ) (hl : l.Nodup) (u : ℕ)
    (hu : u ∈ l) (huS : u ∈ startS)
    (honly : ∀ v ∈ l, v ∈ startS → v = u) :
    (l.map fun t => ind t).sum = 1 := by
  rw [← List.sum_toFinset _ hl]
  have h0 : ∀ b ∈ l.toFinset, b ≠ u → ind b = 0 := by
    intro b hb hne
    have hb' := List.mem_toFinset.mp hb
    have hnS : b ∉ startS := fun hS => hne (honly b hb' hS)
    simp [ind, hnS]
  rw [Finset.sum_eq_single u h0 (fun h => absurd (List.mem_toFinset.mpr hu) h)]
  simp [ind, huS]

/-! ### Feasibility of the concrete assignments -/

theorem nreccur_instA : nreccur instA = 2 := rfl

theorem no_bat_instA {b : ℕ} (hb : b ∈ Finset.range (nbattery instA)) : False := by
  simpa [nbattery, instA] using hb

theorem ract_instA_zero : ract instA 0 = actA := rfl

theorem ract_instA_one : ract instA 1 = actB := rfl

theorem sigmaA_base : BaseModel Binary instA sigmaA := by
  refine
    { net_power_lb := fun t _ => le_refl 0,
      act_power_lb := fun t _ => le_refl 0,
      bat_level_lb := fun b hb => (no_bat_instA hb).elim,
      ract_begin_dom := fun a _ t _ => ?_,
      ract_ongoing_dom := fun a _ t _ => ?_,
      bat_charge_dom := fun b hb => (no_bat_instA hb).elim,
      bat_discharge_dom := fun b hb => (no_bat_instA hb).elim,
      bat_initial := fun b hb => (no_bat_instA hb).elim,
      bat_capacity := fun b hb => (no_bat_instA hb).elim,
      weekly_week1 := fun a _ => ?_,
      weekly_week2 := fun a _ => ?_,
      weekly_week3 := fun a _ => ?_,
      weekly_week4 := fun a _ => ?_,
      prec_before := fun a ha p hp => ?_,
      periodic_begin := fun a _ num hnum => ?_,
      periodic_ongoing := fun a _ num hnum => ?_,
      duration_contiguity := fun a ha t ht k hk => ?_,
      nonvalid_ongoing := fun a _ t ht => ?_,
      nonvalid_begin := fun a _ t ht => ?_,
      small_room_cap := fun t _ => ?_,
      large_room_cap := fun t _ => ?_,
      act_power_eq := fun t _ => ?_,
      bat_dynamics := fun t _ b hb => (no_bat_instA hb).elim,
      net_power_eq := fun t _ => ?_ }
  -- binarity of the start indicator
  · by_cases h : t ∈ startS <;> simp [sigmaA, Binary, ind, h]
  -- binarity of the ongoing indicator
  · by_cases h : t ∈ startS <;> simp [sigmaA, Binary, ind, h]
  -- one start in week 1
  · exact sum_map_ind_eq_one week1_t week1_t_nodup 228
      (mem_week1_t.mpr (by omega)) (by simp [startS])
      (fun v hv hS => by
        have hb := mem_week1_t.mp hv
        simp only [startS, List.mem_cons, List.not_mem_nil, or_false] at hS
        omega)
  -- one start in week 2
  · exact sum_map_ind_eq_one week2_t week2_t_nodup 900
      (mem_week2_t.mpr (by omega)) (by simp [startS])
      (fun v hv hS => by
        have hb := mem_week2_t.mp hv
        simp only [startS, List.mem_cons, List.not_mem_nil, or_false] at hS
        omega)
  -- one start in week 3
  · exact sum_map_ind_eq_one week3_t week3_t_nodup 1572
      (mem_week3_t.mpr (by omega)) (by simp [startS])
      (fun v hv hS => by
        have hb := mem_week3_t.mp hv
        simp only [startS, List.mem_cons, List.not_mem_nil, or_false] at hS
        omega)
  -- one start in week 4
  · exact sum_map_ind_eq_one week4_t week4_t_nodup 2244
      (mem_week4_t.mpr (by omega)) (by simp [startS])
      (fun v hv hS => by
        have hb := mem_week4_t.mp hv
        simp only [startS, List.mem_cons, List.not_mem_nil, or_false] at hS
        omega)
  -- precedence: both activities have the same weighted start sum
  · have ha2 : a < 2 := by simpa [nreccur, instA] using ha
    have hcases : a = 0 ∨ a = 1 := by omega
    rcases hcases with rfl | rfl
    · simp [ract, instA, actA] at hp
    · simp only [ract, instA, actB, actA, List.getD_cons_succ, List.getD_cons_zero,
        List.mem_singleton] at hp
      subst hp
      exact le_refl _
  -- weekly periodicity of starts
  · have h12 : 768 ≤ num ∧ num < 2880 := by simpa [nperiod] using hnum
    have hiff := startS_periodic h12.1 h12.2
    by_cases hm : num ∈ startS
    · simp [sigmaA, ind, hm, hiff.mp hm]
    · have hm' : num - 672 ∉ startS := fun hc => hm (hiff.mpr hc)
      simp [sigmaA, ind, hm, hm']
  -- weekly periodicity of ongoing
  · have h12 : 768 ≤ num ∧ num < 2880 := by simpa [nperiod] using hnum
    have hiff := startS_periodic h12.1 h12.2
    by_cases hm : num ∈ startS
    · simp [sigmaA, ind, hm, hiff.mp hm]
    · have hm' : num - 672 ∉ startS := fun hc => hm (hiff.mpr hc)
      simp [sigmaA, ind, hm, hm']
  -- duration contiguity: both durations are 1
  · have ha2 : a < 2 := by simpa [nreccur, instA] using ha
    have hdur : (ract instA a).duration = 1 := by
      have hcases : a = 0 ∨ a = 1 := by omega
      rcases hcases with rfl | rfl <;> rfl
    rw [hdur] at hk
    have hk0 : k = 0 := by
      have := Finset.mem_range.mp hk
      omega
    subst hk0
    simp [sigmaA]
  -- ongoing vanishes outside business hours
  · have h := (mem_nonvalid_t.mp ht).2
    have hS : t ∉ startS := fun hc => h (startS_valid t hc)
    simp [sigmaA, ind, hS]
  -- starts vanish outside business hours
  · have h := (mem_nonvalid_t.mp ht).2
    have hS : t ∉ startS := fun hc => h (startS_valid t hc)
    simp [sigmaA, ind, hS]
  -- small-room capacity
  · simp only [nreccur_instA]
    rw [Finset.sum_range_succ, Finset.sum_range_one]
    simp only [sigmaA, ract_instA_zero, ract_instA_one, actA, actB]
    by_cases h : t ∈ startS <;>
      simp [ind, h, nsmallroom, instA] <;> norm_num
  -- large-room capacity
  · simp only [nreccur_instA]
    rw [Finset.sum_range_succ, Finset.sum_range_one]
    simp only [sigmaA, ract_instA_zero, ract_instA_one, actA, actB]
    by_cases h : t ∈ startS <;>
      simp [ind, h, nlargeroom, instA] <;> norm_num
  -- activity power is zero (zero loads)
  · simp only [nreccur_instA]
    rw [Finset.sum_range_succ, Finset.sum_range_one]
    simp [sigmaA, ract_instA_zero, ract_instA_one, actA, actB]
  -- net power is zero
  · simp [sigmaA, instA, nbattery]

theorem sigmaA_feasible : Feasible instA sigmaA :=
  { toBaseModel := sigmaA_base,
    maxpower_lb := le_refl 0,
    max_power_eq := (Finset.sup'_const range_nperiod_nonempty 0).symm }

theorem no_ract_instB {a : ℕ} (ha : a ∈ Finset.range (nreccur instB)) : False := by
  simpa [nreccur, instB] using ha

theorem sigmaB_base : BaseModel Binary instB sigmaB := by
  refine
    { net_power_lb := fun t _ => le_refl 0,
      act_power_lb := fun t _ => le_refl 0,
      bat_level_lb := fun b _ t _ => by norm_num [sigmaB],
      ract_begin_dom := fun a ha => (no_ract_instB ha).elim,
      ract_ongoing_dom := fun a ha => (no_ract_instB ha).elim,
      bat_charge_dom := fun b _ t _ => Or.inr rfl,
      bat_discharge_dom := fun b _ t _ => Or.inr rfl,
      bat_initial := fun b hb => ?_,
      bat_capacity := fun b hb t _ => ?_,
      weekly_week1 := fun a ha => (no_ract_instB ha).elim,
      weekly_week2 := fun a ha => (no_ract_instB ha).elim,
      weekly_week3 := fun a ha => (no_ract_instB ha).elim,
      weekly_week4 := fun a ha => (no_ract_instB ha).elim,
      prec_before := fun a ha => (no_ract_instB ha).elim,
      periodic_begin := fun a ha => (no_ract_instB ha).elim,
      periodic_ongoing := fun a ha => (no_ract_instB ha).elim,
      duration_contiguity := fun a ha => (no_ract_instB ha).elim,
      nonvalid_ongoing := fun a ha => (no_ract_instB ha).elim,
      nonvalid_begin := fun a ha => (no_ract_instB ha).elim,
      small_room_cap := fun t _ => by
        simp [nreccur, instB, nsmallroom],
      large_room_cap := fun t _ => by
        simp [nreccur, instB, nlargeroom],
      act_power_eq := fun t _ => by
        simp [sigmaB, nreccur, instB],
      bat_dynamics := fun t _ b hb => ?_,
      net_power_eq := fun t _ => ?_ }
  -- initial level equals capacity
  · have hb1 : b < 1 := by simpa [nbattery, instB] using hb
    have hb0 : b = 0 := by omega
    subst hb0
    rfl
  -- level stays within capacity
  · have hb1 : b < 1 := by simpa [nbattery, instB] using hb
    have hb0 : b = 0 := by omega
    subst hb0
    exact le_refl _
  -- battery dynamics with simultaneous charge and discharge
  · have hb1 : b < 1 := by simpa [nbattery, instB] using hb
    have hb0 : b = 0 := by omega
    subst hb0
    norm_num [sigmaB, bat, instB]
  -- net power: the charge and discharge terms cancel
  · have hn : nbattery instB = 1 := rfl
    rw [hn, Finset.sum_range_one]
    norm_num [sigmaB, bat, instB]

theorem sigmaB_feasible : Feasible instB sigmaB :=
  { toBaseModel := sigmaB_base,
    maxpower_lb := le_refl 0,
    max_power_eq := (Finset.sup'_const range_nperiod_nonempty 0).symm }

theorem mem0_nperiod : 0 ∈ Finset.range nperiod :=
  Finset.mem_range.mpr (by norm_num [nperiod])

theorem no_bat_zeroProblem {f : ℕ → ℚ} {b : ℕ}
    (hb : b ∈ Finset.range (nbattery (zeroProblem f))) : False := by
  simpa [nbattery, zeroProblem] using hb

theorem no_ract_zeroProblem {f : ℕ → ℚ} {a : ℕ}
    (ha : a ∈ Finset.range (nreccur (zeroProblem f))) : False := by
  simpa [nreccur, zeroProblem] using ha

theorem sigma_of_base_base (f : ℕ → ℚ) (hf : ∀ t ∈ Finset.range nperiod, 0 ≤ f t) :
    BaseModel Binary (zeroProblem f) (sigma_of_base f) :=
  { net_power_lb := hf,
    act_power_lb := fun t _ => le_refl 0,
    bat_level_lb := fun b hb => (no_bat_zeroProblem hb).elim,
    ract_begin_dom := fun a ha => (no_ract_zeroProblem ha).elim,
    ract_ongoing_dom := fun a ha => (no_ract_zeroProblem ha).elim,
    bat_charge_dom := fun b hb => (no_bat_zeroProblem hb).elim,
    bat_discharge_dom := fun b hb => (no_bat_zeroProblem hb).elim,
    bat_initial := fun b hb => (no_bat_zeroProblem hb).elim,
    bat_capacity := fun b hb => (no_bat_zeroProblem hb).elim,
    weekly_week1 := fun a ha => (no_ract_zeroProblem ha).elim,
    weekly_week2 := fun a ha => (no_ract_zeroProblem ha).elim,
    weekly_week3 := fun a ha => (no_ract_zeroProblem ha).elim,
    weekly_week4 := fun a ha => (no_ract_zeroProblem ha).elim,
    prec_before := fun a ha => (no_ract_zeroProblem ha).elim,
    periodic_begin := fun a ha => (no_ract_zeroProblem ha).elim,
    periodic_ongoing := fun a ha => (no_ract_zeroProblem ha).elim,
    duration_contiguity := fun a ha => (no_ract_zeroProblem ha).elim,
    nonvalid_ongoing := fun a ha => (no_ract_zeroProblem ha).elim,
    nonvalid_begin := fun a ha => (no_ract_zeroProblem ha).elim,
    small_room_cap := fun t _ => by simp [nreccur, zeroProblem, nsmallroom],
    large_room_cap := fun t _ => by simp [nreccur, zeroProblem, nlargeroom],
    act_power_eq := fun t _ => by simp [sigma_of_base, nreccur, zeroProblem],
    bat_dynamics := fun t _ b hb => (no_bat_zeroProblem hb).elim,
    net_power_eq := fun t _ => by simp [sigma_of_base, nbattery, zeroProblem] }

theorem sigma_of_base_feasible (f : ℕ → ℚ)
    (hf : ∀ t ∈ Finset.range nperiod, 0 ≤ f t) :
    Feasible (zeroProblem f) (sigma_of_base f) :=
  { toBaseModel := sigma_of_base_base f hf,
    maxpower_lb := by
      simp only [sigma_of_base]
      exact le_trans (hf 0 mem0_nperiod) (Finset.le_sup' f mem0_nperiod),
    max_power_eq := by simp only [maxOf, sigma_of_base] }

/-- Weakening the variable-domain predicate preserves the base model. -/
theorem BaseModel.mono {dom1 dom2 : ℚ → Prop} (hd : ∀ x, dom1 x → dom2 x)
    {P : Problem} {σ : Assignment} (h : BaseModel dom1 P σ) : BaseModel dom2 P σ :=
  { net_power_lb := h.net_power_lb,
    act_power_lb := h.act_power_lb,
    bat_level_lb := h.bat_level_lb,
    ract_begin_dom := fun a ha t ht => hd _ (h.ract_begin_dom a ha t ht),
    ract_ongoing_dom := fun a ha t ht => hd _ (h.ract_ongoing_dom a ha t ht),
    bat_charge_dom := fun b hb t ht => hd _ (h.bat_charge_dom b hb t ht),
    bat_discharge_dom := fun b hb t ht => hd _ (h.bat_discharge_dom b hb t ht),
    bat_initial := h.bat_initial,
    bat_capacity := h.bat_capacity,
    weekly_week1 := h.weekly_week1,
    weekly_week2 := h.weekly_week2,
    weekly_week3 := h.weekly_week3,
    weekly_week4 := h.weekly_week4,
    prec_before := h.prec_before,
    periodic_begin := h.periodic_begin,
    periodic_ongoing := h.periodic_ongoing,
    duration_contiguity := h.duration_contiguity,
    nonvalid_ongoing := h.nonvalid_ongoing,
    nonvalid_begin := h.nonvalid_begin,
    small_room_cap := h.small_room_cap,
    large_room_cap := h.large_room_cap,
    act_power_eq := h.act_power_eq,
    bat_dynamics := h.bat_dynamics,
    net_power_eq := h.net_power_eq }

/-- An integral-feasible assignment is feasible for the relaxed model. -/
theorem feasible_relax {P : Problem} {σ : Assignment} (h : Feasible P σ) :
    Relaxed P σ :=
  { toBaseModel := h.toBaseModel.mono fun _ hx => binary_unit01 hx,
    maxpower_lb := h.maxpower_lb,
    max_power_eq := h.max_power_eq }

/-- The base model never mentions the `maxpower` component. -/
theorem BaseModel.update_maxpower {dom : ℚ → Prop} {P : Problem} {σ : Assignment}
    (m : ℚ) (h : BaseModel dom P σ) : BaseModel dom P { σ with maxpower := m } :=
  { net_power_lb := h.net_power_lb,
    act_power_lb := h.act_power_lb,
    bat_level_lb := h.bat_level_lb,
    ract_begin_dom := h.ract_begin_dom,
    ract_ongoing_dom := h.ract_ongoing_dom,
    bat_charge_dom := h.bat_charge_dom,
    bat_discharge_dom := h.bat_discharge_dom,
    bat_initial := h.bat_initial,
    bat_capacity := h.bat_capacity,
    weekly_week1 := h.weekly_week1,
    weekly_week2 := h.weekly_week2,
    weekly_week3 := h.weekly_week3,
    weekly_week4 := h.weekly_week4,
    prec_before := h.prec_before,
    periodic_begin := h.periodic_begin,
    periodic_ongoing := h.periodic_ongoing,
    duration_contiguity := h.duration_contiguity,
    nonvalid_ongoing := h.nonvalid_ongoing,
    nonvalid_begin := h.nonvalid_begin,
    small_room_cap := h.small_room_cap,
    large_room_cap := h.large_room_cap,
    act_power_eq := h.act_power_eq,
    bat_dynamics := h.bat_dynamics,
    net_power_eq := h.net_power_eq }

theorem update_maxpower_val (σ : Assignment) (m : ℚ) :
    ({ σ with maxpower := m } : Assignment).maxpower = m := rfl

theorem maxOf_update {σ : Assignment} {m : ℚ} :
    maxOf { σ with maxpower := m } = maxOf σ := rfl

theorem maxOf_nonneg {dom : ℚ → Prop} {P : Problem} {σ : Assignment}
    (h : BaseModel dom P σ) : 0 ≤ maxOf σ :=
  le_trans (h.net_power_lb 0 mem0_nperiod) (Finset.le_sup' _ mem0_nperiod)

/-- In the model of a zero instance the activity power is forced to 0. -/
theorem zero_act_forced {dom : ℚ → Prop} {f : ℕ → ℚ} {σ : Assignment}
    (h : BaseModel dom (zeroProblem f) σ) :
    ∀ t ∈ Finset.range nperiod, σ.act_power t = 0 := by
  intro t ht
  have h1 := h.act_power_eq t ht
  simpa [nreccur, zeroProblem] using h1

/-- In the model of a zero instance the net power is forced to equal the
base load. -/
theorem zero_net_forced {dom : ℚ → Prop} {f : ℕ → ℚ} {σ : Assignment}
    (h : BaseModel dom (zeroProblem f) σ) :
    ∀ t ∈ Finset.range nperiod, σ.net_power t = f t := by
  intro t ht
  have h1 := h.net_power_eq t ht
  have h2 := zero_act_forced h t ht
  simpa [nbattery, zeroProblem, h2] using h1

/-! ### Option and list traversal helpers -/

theorem binary_one_of_one_le {x : ℚ} (hbin : Binary x) (h : 1 ≤ x) : x = 1 := by
  rcases hbin with rfl | rfl
  · norm_num at h
  · rfl

theorem flatten_map_nil {α β : Type} (g : α → List β) (l : List α)
    (h : ∀ x ∈ l, g x = []) : (l.map g).flatten = [] := by
  induction l with
  | nil => rfl
  | cons a l ih =>
    rw [List.map_cons, List.flatten_cons, h a (by simp),
      ih (fun x hx => h x (by simp [hx]))]
    rfl

theorem mapM_const_some {α β : Type} (g : α → Option β) (c : β) :
    ∀ l : List α, (∀ x ∈ l, g x = some c) → l.mapM g = some (l.map fun _ => c) := by
  intro l
  induction l with
  | nil => intro _; rfl
  | cons a l ih =>
    intro h
    rw [List.mapM_cons, h a (by simp), ih (fun x hx => h x (by simp [hx]))]
    rfl

theorem mapM_none_of_mem {α β : Type} (g : α → Option β) (x : α) :
    ∀ l : List α, x ∈ l → g x = none → l.mapM g = none := by
  intro l
  induction l with
  | nil => simp
  | cons a l ih =>
    intro hx hg
    rw [List.mapM_cons]
    rcases List.mem_cons.mp hx with rfl | hx'
    · rw [hg]
      rfl
    · cases hga : g a with
      | none => rfl
      | some v =>
        rw [ih hx' hg]
        rfl

/-- Aggregating an all-zero forecast table with at least 12 rows of at
least 2880 entries succeeds and yields the all-zero net load. -/
theorem netload_replicate_some {nr nc : ℕ} (h12 : 12 ≤ nr) (hc : 2880 ≤ nc) :
    netload (List.replicate nr (List.replicate nc (0 : ℚ))) =
      some (List.replicate 2880 (0 : ℚ)) := by
  unfold netload
  have hblock : ∀ t ∈ List.range nperiod,
      (((List.range 6).mapM fun i =>
          ((List.replicate nr (List.replicate nc (0 : ℚ)))[i]?).bind fun row =>
            row[t]?).bind fun bc =>
        ((List.range 6).mapM fun i =>
            ((List.replicate nr (List.replicate nc (0 : ℚ)))[i + 6]?).bind fun row =>
              row[t]?).bind fun sp =>
          some (bc.sum - sp.sum)) = some 0 := by
    intro t ht
    have ht' : t < 2880 := by simpa [nperiod] using ht
    have hstep1 : ∀ i ∈ List.range 6,
        (((List.replicate nr (List.replicate nc (0 : ℚ)))[i]?).bind fun row => row[t]?) =
          some 0 := by
      intro i hi
      have hi6 : i < 6 := by simpa using hi
      rw [List.getElem?_replicate, if_pos (by omega)]
      simp only [Option.some_bind]
      rw [List.getElem?_replicate, if_pos (by omega)]
    have hstep2 : ∀ i ∈ List.range 6,
        (((List.replicate nr (List.replicate nc (0 : ℚ)))[i + 6]?).bind fun row => row[t]?) =
          some 0 := by
      intro i hi
      have hi6 : i < 6 := by simpa using hi
      rw [List.getElem?_replicate, if_pos (by omega)]
      simp only [Option.some_bind]
      rw [List.getElem?_replicate, if_pos (by omega)]
    rw [mapM_const_some _ 0 _ hstep1, mapM_const_some _ 0 _ hstep2]
    simp only [Option.some_bind, Option.some.injEq]
    simp
  rw [mapM_const_some _ 0 _ hblock, List.map_const', List.length_range]
  rfl

/-- Aggregating 11 rows fails: the sixth solar row (index 11) is missing,
giving an out-of-range lookup, not a shape error. -/
theorem netload_missing_row :
    netload (List.replicate 11 (List.replicate 2880 (0 : ℚ))) = none := by
  unfold netload
  apply mapM_none_of_mem _ 0
  · norm_num [List.mem_range, nperiod]
  · have h1 : (List.range 6).mapM (fun i =>
        ((List.replicate 11 (List.replicate 2880 (0 : ℚ)))[i]?).bind fun row =>
          row[(0 : ℕ)]?) = some ((List.range 6).map fun _ => (0 : ℚ)) := by
      apply mapM_const_some
      intro i hi
      have hi6 : i < 6 := by simpa using hi
      rw [List.getElem?_replicate, if_pos (by omega)]
      simp only [Option.some_bind]
      rw [List.getElem?_replicate, if_pos (by omega)]
    have hfail : ((List.replicate 11 (List.replicate 2880 (0 : ℚ)))[5 + 6]?).bind
        (fun row => row[(0 : ℕ)]?) = none := by
      rw [List.getElem?_replicate, if_neg (by omega)]
      rfl
    have h2 : (List.range 6).mapM (fun i =>
        ((List.replicate 11 (List.replicate 2880 (0 : ℚ)))[i + 6]?).bind fun row =>
          row[(0 : ℕ)]?) = none :=
      mapM_none_of_mem _ 5 _ (by norm_num [List.mem_range]) hfail
    rw [h1]
    simp only [Option.some_bind]
    rw [h2]
    rfl

/-- Aggregating 12 rows of only 2000 entries fails at period 2000: an
out-of-range column lookup, not a shape error. -/
theorem netload_missing_col :
    netload (List.replicate 12 (List.replicate 2000 (0 : ℚ))) = none := by
  unfold netload
  apply mapM_none_of_mem _ 2000
  · norm_num [List.mem_range, nperiod]
  · have hfail : ((List.replicate 12 (List.replicate 2000 (0 : ℚ)))[0]?).bind
        (fun row => row[(2000 : ℕ)]?) = none := by
      rw [List.getElem?_replicate, if_pos (by omega)]
      simp only [Option.some_bind]
      rw [List.getElem?_replicate, if_neg (by omega)]
    have h1 : (List.range 6).mapM (fun i =>
        ((List.replicate 12 (List.replicate 2000 (0 : ℚ)))[i]?).bind fun row =>
          row[(2000 : ℕ)]?) = none :=
      mapM_none_of_mem _ 0 _ (by norm_num [List.mem_range]) hfail
    rw [h1]
    rfl

/-- One-hot characterization of a weekly occurrence constraint. -/
theorem exists_unique_start_in_week {P : Problem} {σ : Assignment}
    (h : Feasible P σ) {a : ℕ} (ha : a ∈ Finset.range (nreccur P))
    (l : List ℕ) (hnodup : l.Nodup) (hbound : ∀ x ∈ l, x < 2880)
    (hsum : (l.map fun t => σ.ract_begin a t).sum = 1) :
    ∃! t, t ∈ l ∧ σ.ract_begin a t = 1 := by
  have hsum' : ∑ x ∈ l.toFinset, σ.ract_begin a x = 1 :=
    (List.sum_toFinset _ hnodup).trans hsum
  have hbin : ∀ x ∈ l.toFinset, Binary (σ.ract_begin a x) := by
    intro x hx
    have hx' := List.mem_toFinset.mp hx
    refine h.ract_begin_dom a ha x (Finset.mem_range.mpr ?_)
    have hxb := hbound x hx'
    simpa [nperiod] using hxb
  have huniq := binary_sum_exists_unique l.toFinset _ hbin hsum'
  simpa [List.mem_toFinset] using huniq

/-! ### Claim theorems -/

/-- Claim C1: the cost value returned by `schedule_basic` equals the phase-2
objective, namely the sum over all 2880 periods `t` of
`0.25 * netPower[t] * price[t] / 1000`, plus `0.005 * peakBound^2`,
evaluated at the phase-2 solution `σ2`, where `peakBound` is the scalar
objective value produced by the phase-1 solve (`phase1_objective σ1`). -/
theorem claim_C1_cost_formula (price : ℕ → ℚ) (σ1 σ2 : Assignment) :
    schedule_basic_cost price σ1 σ2 =
      (∑ t ∈ Finset.range 2880, 0.25 * σ2.net_power t * price t / 1000) +
        0.005 * phase1_objective σ1 ^ 2 := rfl

/-- Claim C2: in every feasible assignment, each recurring activity starts
exactly once in each of the four full weeks (periods `[96,768)`,
`[768,1440)`, `[1440,2112)`, `[2112,2784)`); no such exactly-one constraint
is imposed for week 5 (periods `[2784,2880)`), witnessed by a feasible
assignment of a two-activity instance with zero week-5 starts. -/
theorem claim_C2_weekly_occurrence :
    (∀ (P : Problem) (σ : Assignment), Feasible P σ →
      ∀ a ∈ Finset.range (nreccur P),
        (∃! t, t ∈ week1_t ∧ σ.ract_begin a t = 1) ∧
        (∃! t, t ∈ week2_t ∧ σ.ract_begin a t = 1) ∧
        (∃! t, t ∈ week3_t ∧ σ.ract_begin a t = 1) ∧
        (∃! t, t ∈ week4_t ∧ σ.ract_begin a t = 1)) ∧
    (Feasible instA sigmaA ∧ ∀ t ∈ week5_t, sigmaA.ract_begin 0 t = 0) := by
  constructor
  · intro P σ h a ha
    refine ⟨?_, ?_, ?_, ?_⟩
    · exact exists_unique_start_in_week h ha week1_t week1_t_nodup
        (fun x hx => by have := mem_week1_t.mp hx; omega) (h.weekly_week1 a ha)
    · exact exists_unique_start_in_week h ha week2_t week2_t_nodup
        (fun x hx => by have := mem_week2_t.mp hx; omega) (h.weekly_week2 a ha)
    · exact exists_unique_start_in_week h ha week3_t week3_t_nodup
        (fun x hx => by have := mem_week3_t.mp hx; omega) (h.weekly_week3 a ha)
    · exact exists_unique_start_in_week h ha week4_t week4_t_nodup
        (fun x hx => by have := mem_week4_t.mp hx; omega) (h.weekly_week4 a ha)
  · refine ⟨sigmaA_feasible, ?_⟩
    intro t ht
    have hb := mem_week5_t.mp ht
    have hS : t ∉ startS := by
      simp only [startS, List.mem_cons, List.not_mem_nil, or_false]
      omega
    simp [sigmaA, ind, hS]

/-- Witness for claim C2: the two-activity instance has exactly one week-1
start (the theorem is applied at activity 0 of the concrete instance). -/
theorem claim_C2_weekly_occurrence_witness :
    ∃! t, t ∈ week1_t ∧ sigmaA.ract_begin 0 t = 1 :=
  (claim_C2_weekly_occurrence.1 instA sigmaA sigmaA_feasible 0 (by decide)).1

/-- Claim C4: in every feasible assignment, `ract_begin` and `ract_ongoing`
satisfy the weekly periodicity `value[a,t] = value[a,t+672]` for every `t`
with `t + 672 < 2880`, including the lead-in `t < 96` where the explicit
periodic-equality constraints (which only cover periods 768 onward) do not
directly apply — there both sides are forced to zero by the business-hours
constraints. -/
theorem claim_C4_periodicity_full (P : Problem) (σ : Assignment)
    (h : Feasible P σ) (a : ℕ) (ha : a ∈ Finset.range (nreccur P))
    (t : ℕ) (ht : t + 672 < 2880) :
    σ.ract_begin a t = σ.ract_begin a (t + 672) ∧
    σ.ract_ongoing a t = σ.ract_ongoing a (t + 672) := by
  by_cases hlead : t < 96
  · have hnv1 : t ∈ nonvalid_t :=
      mem_nonvalid_t.mpr ⟨by omega, not_valid_lead_in hlead⟩
    have hnv2 : t + 672 ∈ nonvalid_t :=
      mem_nonvalid_t.mpr ⟨by omega, not_valid_gap (by omega) (by omega)⟩
    constructor
    · rw [h.nonvalid_begin a ha t hnv1, h.nonvalid_begin a ha (t + 672) hnv2]
    · rw [h.nonvalid_ongoing a ha t hnv1, h.nonvalid_ongoing a ha (t + 672) hnv2]
  · have hmem : t + 672 ∈ Finset.Ico 768 nperiod := by
      simp only [Finset.mem_Ico, nperiod]
      omega
    have hb := h.periodic_begin a ha (t + 672) hmem
    have ho := h.periodic_ongoing a ha (t + 672) hmem
    have he : t + 672 - 672 = t := by omega
    rw [he] at hb ho
    exact ⟨hb.symm, ho.symm⟩

/-- Witness for claim C4: applied to the concrete instance at `t = 0`. -/
theorem claim_C4_periodicity_full_witness :
    sigmaA.ract_begin 0 0 = sigmaA.ract_begin 0 672 ∧
    sigmaA.ract_ongoing 0 0 = sigmaA.ract_ongoing 0 672 :=
  claim_C4_periodicity_full instA sigmaA sigmaA_feasible 0 (by decide) 0 (by decide)

/-- Claim C5: in every feasible assignment, a start of activity `a` at
period `t` forces `duration` contiguous ongoing periods, including when `t`
lies within the final `duration` periods of the grid (for the in-grid
offsets), where the explicit contiguity constraints do not reach; the
spec's RecurringActivity invariant `duration ≤ 672` is assumed. -/
theorem claim_C5_duration_contiguity (P : Problem) (σ : Assignment)
    (h : Feasible P σ) (a : ℕ) (ha : a ∈ Finset.range (nreccur P))
    (hdur : (ract P a).duration ≤ 672)
    (t : ℕ) (ht : t < 2880) (hstart : σ.ract_begin a t = 1)
    (k : ℕ) (hk : k < (ract P a).duration) (htk : t + k < 2880) :
    σ.ract_ongoing a (t + k) = 1 := by
  by_cases hmain : t < 2880 - (ract P a).duration
  · have hconstr := h.duration_contiguity a ha t
      (Finset.mem_range.mpr (by simp only [nperiod]; omega))
      k (Finset.mem_range.mpr hk)
    rw [hstart] at hconstr
    exact binary_one_of_one_le
      (h.ract_ongoing_dom a ha (t + k)
        (Finset.mem_range.mpr (by simp only [nperiod]; omega))) hconstr
  · have h768 : 768 ≤ t := by omega
    have hper := h.periodic_begin a ha t
      (by simp only [Finset.mem_Ico, nperiod]; omega)
    rw [hstart] at hper
    have hstart' : σ.ract_begin a (t - 672) = 1 := hper.symm
    have hconstr := h.duration_contiguity a ha (t - 672)
      (Finset.mem_range.mpr (by simp only [nperiod]; omega))
      k (Finset.mem_range.mpr hk)
    rw [hstart'] at hconstr
    have hpero := h.periodic_ongoing a ha (t + k)
      (by simp only [Finset.mem_Ico, nperiod]; omega)
    have he : t + k - 672 = t - 672 + k := by omega
    rw [he] at hpero
    rw [hpero]
    exact binary_one_of_one_le
      (h.ract_ongoing_dom a ha (t - 672 + k)
        (Finset.mem_range.mpr (by simp only [nperiod]; omega))) hconstr

/-- Witness for claim C5: applied to the concrete instance at the week-1
start period 228 with offset 0. -/
theorem claim_C5_duration_contiguity_witness :
    sigmaA.ract_ongoing 0 (228 + 0) = 1 :=
  claim_C5_duration_contiguity instA sigmaA sigmaA_feasible 0 (by decide)
    (by decide) 228 (by decide) (by simp [sigmaA, ind, startS]) 0 (by decide)
    (by decide)

/-- Claim C6: for every activity `a` with predecessor `p` in its precedence
list, every feasible assignment satisfies the weighted-start-sum inequality
over week 1, and — via the weekly one-hot property — this is equivalent to
the predecessor's unique week-1 start period being at most the successor's;
the spec invariant that precedence references lie within the activity set
is assumed (`hpn`). -/
theorem claim_C6_precedence (P : Problem) (σ : Assignment) (h : Feasible P σ)
    (a : ℕ) (ha : a ∈ Finset.range (nreccur P))
    (p : ℕ) (hp : p ∈ (ract P a).precedence_list)
    (hpn : p ∈ Finset.range (nreccur P)) :
    ((week1_t.map fun t => σ.ract_begin p t * (t : ℚ)).sum ≤
      (week1_t.map fun t => σ.ract_begin a t * (t : ℚ)).sum) ∧
    (∀ t1 ∈ week1_t, ∀ t2 ∈ week1_t,
      σ.ract_begin a t1 = 1 → σ.ract_begin p t2 = 1 → t2 ≤ t1) := by
  refine ⟨h.prec_before a ha p hp, ?_⟩
  intro t1 ht1 t2 ht2 h1 h2
  have hbin : ∀ c ∈ Finset.range (nreccur P), ∀ x ∈ week1_t.toFinset,
      Binary (σ.ract_begin c x) := by
    intro c hc x hx
    have hx' := mem_week1_t.mp (List.mem_toFinset.mp hx)
    refine h.ract_begin_dom c hc x (Finset.mem_range.mpr ?_)
    simp only [nperiod]
    omega
  have hsum_a : ∑ x ∈ week1_t.toFinset, σ.ract_begin a x = 1 :=
    (List.sum_toFinset _ week1_t_nodup).trans (h.weekly_week1 a ha)
  have hsum_p : ∑ x ∈ week1_t.toFinset, σ.ract_begin p x = 1 :=
    (List.sum_toFinset _ week1_t_nodup).trans (h.weekly_week1 p hpn)
  have hw_a := binary_weighted_sum week1_t.toFinset _ (hbin a ha) hsum_a
    (List.mem_toFinset.mpr ht1) h1
  have hw_p := binary_weighted_sum week1_t.toFinset _ (hbin p hpn) hsum_p
    (List.mem_toFinset.mpr ht2) h2
  have hle := h.prec_before a ha p hp
  rw [← List.sum_toFinset _ week1_t_nodup, ← List.sum_toFinset _ week1_t_nodup]
    at hle
  rw [hw_a, hw_p] at hle
  exact_mod_cast hle

/-- Witness for claim C6: applied to the concrete two-activity instance
(activity 1 lists activity 0 as predecessor). -/
theorem claim_C6_precedence_witness :
    ((week1_t.map fun t => sigmaA.ract_begin 0 t * (t : ℚ)).sum ≤
      (week1_t.map fun t => sigmaA.ract_begin 1 t * (t : ℚ)).sum) ∧
    (∀ t1 ∈ week1_t, ∀ t2 ∈ week1_t,
      sigmaA.ract_begin 1 t1 = 1 → sigmaA.ract_begin 0 t2 = 1 → t2 ≤ t1) :=
  claim_C6_precedence instA sigmaA sigmaA_feasible 1 (by decide) 0 (by decide)
    (by decide)

/-- Claim C7: the source's peak-power formulation — the single constraint
`maxpower = max over t of netPower[t]` with objective `minimize maxpower` —
has the same optimal objective value as the epigraph formulation of the
same model, where the max constraint is replaced by the 2880 inequalities
`peakPower ≥ netPower[t]` with objective `minimize peakPower`; stated for
every variable-domain predicate, hence for both the relaxed phase-1 model
and the integral model. -/
theorem claim_C7_epigraph_equiv (dom : ℚ → Prop) (P : Problem) (v : ℚ) :
    IsLeast (maxFormValues dom P) v ↔ IsLeast (epiFormValues dom P) v := by
  constructor
  · rintro ⟨⟨σ, hB, hlb, hmax, rfl⟩, hlow⟩
    constructor
    · refine ⟨σ, hB, hlb, ?_⟩
      intro t ht
      rw [hmax]
      exact Finset.le_sup' _ ht
    · rintro z ⟨σ', hB', hz0, hzle⟩
      have h1 : maxOf σ' ≤ z := by
        unfold maxOf
        exact Finset.sup'_le _ _ hzle
      have hmem : maxOf σ' ∈ maxFormValues dom P := by
        refine ⟨{ σ' with maxpower := maxOf σ' }, hB'.update_maxpower _, ?_, ?_, ?_⟩
        · rw [update_maxpower_val]
          exact maxOf_nonneg hB'
        · rw [update_maxpower_val]
          exact (@maxOf_update σ' (maxOf σ')).symm
        · rw [update_maxpower_val]
      exact le_trans (hlow hmem) h1
  · rintro ⟨⟨σ, hB, hv0, hvle⟩, hlow⟩
    have hsup_le : maxOf σ ≤ v := by
      unfold maxOf
      exact Finset.sup'_le _ _ hvle
    have hmem_epi : maxOf σ ∈ epiFormValues dom P := by
      refine ⟨σ, hB, maxOf_nonneg hB, ?_⟩
      intro t ht
      unfold maxOf
      exact Finset.le_sup' _ ht
    have hveq : v = maxOf σ := le_antisymm (hlow hmem_epi) hsup_le
    constructor
    · refine ⟨{ σ with maxpower := maxOf σ }, hB.update_maxpower _, ?_, ?_, ?_⟩
      · rw [update_maxpower_val]
        exact maxOf_nonneg hB
      · rw [update_maxpower_val]
        exact (@maxOf_update σ (maxOf σ)).symm
      · rw [update_maxpower_val]
        exact hveq
    · rintro z ⟨σ', hB', hlb', hmax', rfl⟩
      have hz : σ'.maxpower ∈ epiFormValues dom P := by
        refine ⟨σ', hB', hlb', ?_⟩
        intro t ht
        rw [hmax']
        exact Finset.le_sup' _ ht
      exact hlow hz

/-- Claim C8: the constraint model imposes no mutual exclusion between
`bat_charge` and `bat_discharge`: the one-battery instance `instB` has a
feasible assignment in which the battery charges and discharges
simultaneously (here at battery 0, period 5, and in fact everywhere). -/
theorem claim_C8_no_mutual_exclusion :
    nbattery instB = 1 ∧ Feasible instB sigmaB ∧
    sigmaB.bat_charge 0 5 = 1 ∧ sigmaB.bat_discharge 0 5 = 1 :=
  ⟨rfl, sigmaB_feasible, rfl, rfl⟩

/-- Cost of `schedule_basic` on a zero-battery zero-activity instance with
constant base load `L` and constant price `Pr`, for any phase-1 and phase-2
solutions: the net power is forced to `L` at every period by the model, so
the cost is the constant-sum term plus the peak penalty. -/
theorem zero_cost_eval (L Pr : ℚ) (σ1 σ2 : Assignment)
    (h1 : Relaxed (zeroProblem fun _ => L) σ1)
    (h2 : Feasible (zeroProblem fun _ => L) σ2) :
    schedule_basic_cost (fun _ => Pr) σ1 σ2 =
      2880 * 0.25 * L * Pr / 1000 + 0.005 * L ^ 2 := by
  have hnet1 := zero_net_forced h1.toBaseModel
  have hnet2 := zero_net_forced h2.toBaseModel
  have hm : phase1_objective σ1 = L := by
    show σ1.maxpower = L
    rw [h1.max_power_eq]
    unfold maxOf
    apply le_antisymm
    · exact Finset.sup'_le _ _ fun t ht => le_of_eq (hnet1 t ht)
    · calc L = σ1.net_power 0 := (hnet1 0 mem0_nperiod).symm
        _ ≤ _ := Finset.le_sup' _ mem0_nperiod
  have hexp : schedule_basic_cost (fun _ => Pr) σ1 σ2 =
      (∑ t ∈ Finset.range nperiod, 0.25 * σ2.net_power t * Pr / 1000) +
        0.005 * phase1_objective σ1 ^ 2 := rfl
  rw [hexp, hm]
  have hsum : (∑ t ∈ Finset.range nperiod, 0.25 * σ2.net_power t * Pr / 1000) =
      ∑ t ∈ Finset.range nperiod, 0.25 * L * Pr / 1000 :=
    Finset.sum_congr rfl fun t ht => by rw [hnet2 t ht]
  rw [hsum, Finset.sum_const, Finset.card_range, nsmul_eq_mul]
  simp only [nperiod]
  push_cast
  ring

/-- Counterexample to claim C3 as stated: for the zero instance with
constant base load 100 and constant price 10, the (unique possible) phase-1
and phase-2 solution values give cost `770`, not the claimed
`2880 * 0.25 * 100 * 10 / 1000 = 720` — the phase-2 objective carries the
additional fixed term `0.005 * peakBound^2 = 50`. -/
theorem claim_C3_counterexample :
    Relaxed (zeroProblem fun _ => (100 : ℚ)) (sigma_of_base fun _ => 100) ∧
    Feasible (zeroProblem fun _ => (100 : ℚ)) (sigma_of_base fun _ => 100) ∧
    schedule_basic_cost (fun _ => 10) (sigma_of_base fun _ => 100)
        (sigma_of_base fun _ => 100) ≠
      2880 * 0.25 * 100 * 10 / 1000 := by
  have hr : Relaxed (zeroProblem fun _ => (100 : ℚ)) (sigma_of_base fun _ => 100) :=
    feasible_relax (sigma_of_base_feasible _ fun t _ => by norm_num)
  have hf : Feasible (zeroProblem fun _ => (100 : ℚ)) (sigma_of_base fun _ => 100) :=
    sigma_of_base_feasible _ fun t _ => by norm_num
  refine ⟨hr, hf, ?_⟩
  rw [zero_cost_eval 100 10 _ _ hr hf]
  norm_num

/-- Claim C3 amended: for the zero-battery zero-activity instance with
constant base load `L ≥ 0` and constant price `Pr`, the returned cost is
`2880 * 0.25 * L * Pr / 1000` plus the phase-2 peak penalty `0.005 * L^2`,
and the returned `ppoi_list` consists of exactly the header line and the
schedule-size line. -/
theorem claim_C3_amended (L Pr : ℚ) (hL : 0 ≤ L) (σ1 σ2 : Assignment)
    (h1 : Relaxed (zeroProblem fun _ => L) σ1)
    (h2 : Feasible (zeroProblem fun _ => L) σ2) :
    schedule_basic_cost (fun _ => Pr) σ1 σ2 =
      2880 * 0.25 * L * Pr / 1000 + 0.005 * L ^ 2 ∧
    schedule_ppoi_list (zeroProblem fun _ => L) σ2 =
      [line_header (zeroProblem fun _ => L), line_sched (zeroProblem fun _ => L)] := by
  constructor
  · exact zero_cost_eval L Pr σ1 σ2 h1 h2
  · unfold schedule_ppoi_list
    have hact : activity_lines (zeroProblem fun _ => L) σ2 = [] := by
      unfold activity_lines
      apply flatten_map_nil
      intro t _
      simp [nreccur, zeroProblem]
    have hbat : battery_lines (zeroProblem fun _ => L) σ2 = [] := by
      unfold battery_lines
      apply flatten_map_nil
      intro t _
      simp [nbattery, zeroProblem]
    rw [hact, hbat]
    rfl

/-- Witness for amended claim C3 at `L = 2`, `Pr = 3`. -/
theorem claim_C3_amended_witness :
    schedule_basic_cost (fun _ => (3 : ℚ)) (sigma_of_base fun _ => 2)
        (sigma_of_base fun _ => 2) =
      2880 * 0.25 * 2 * 3 / 1000 + 0.005 * 2 ^ 2 ∧
    schedule_ppoi_list (zeroProblem fun _ => (2 : ℚ)) (sigma_of_base fun _ => 2) =
      [line_header (zeroProblem fun _ => (2 : ℚ)),
        line_sched (zeroProblem fun _ => (2 : ℚ))] :=
  claim_C3_amended 2 3 (by norm_num) _ _
    (feasible_relax (sigma_of_base_feasible _ fun t _ => by norm_num))
    (sigma_of_base_feasible _ fun t _ => by norm_num)

/-- Counterexample to claim C9 as stated: a forecast table whose row count
(13) and column count (2881) both disagree with the expected 12 entities
and 2880 periods is aggregated without any error — there is no
`ShapeMismatch` failure; the extra row and column are silently ignored. -/
theorem claim_C9_counterexample :
    netload (List.replicate 13 (List.replicate 2881 (0 : ℚ))) =
      some (List.replicate 2880 (0 : ℚ)) :=
  netload_replicate_some (by norm_num) (by norm_num)

/-- Claim C9 amended: the load aggregation performs no shape validation.
Extra forecast rows and columns are silently ignored (a 13-row, 2881-column
table aggregates to the same result as a 12-row, 2881-column one), while
missing rows or columns surface as a generic out-of-range lookup failure
(`none`, an `IndexError` in the source), not a `ShapeMismatch` error. -/
theorem claim_C9_amended :
    netload (List.replicate 13 (List.replicate 2881 (0 : ℚ))) =
      netload (List.replicate 12 (List.replicate 2881 (0 : ℚ))) ∧
    netload (List.replicate 11 (List.replicate 2880 (0 : ℚ))) = none ∧
    netload (List.replicate 12 (List.replicate 2000 (0 : ℚ))) = none := by
  refine ⟨?_, netload_missing_row, netload_missing_col⟩
  rw [netload_replicate_some (by norm_num) (by norm_num),
    netload_replicate_some (by norm_num) (by norm_num)]

/-- Claim C10: because `net_power` has lower bound 0 and is constrained to
equal base load plus activity power plus battery net power, an instance
with zero batteries and zero recurring activities has a feasible constraint
model if and only if the base load is nonnegative at every period; in
particular any period where solar production exceeds building consumption
(base load negative) makes the model infeasible. -/
theorem claim_C10_zero_instance_feasibility_iff (f : ℕ → ℚ) :
    (∃ σ, Feasible (zeroProblem f) σ) ↔ ∀ t ∈ Finset.range 2880, 0 ≤ f t := by
  constructor
  · rintro ⟨σ, hσ⟩ t ht
    have ht' : t ∈ Finset.range nperiod := ht
    rw [← zero_net_forced hσ.toBaseModel t ht']
    exact hσ.net_power_lb t ht'
  · intro hf
    exact ⟨sigma_of_base f, sigma_of_base_feasible f fun t ht => hf t ht⟩

end OptBasicSchedule
